import Mathlib

/-!
Shallow embedding of the AstroFlare backtesting code
(`src/backend/src/services/backtestingService.js` and the technical-indicators
service) over exact arithmetic.  JavaScript numbers are idealised as rationals
(reals where a square root occurs); `Number(x.toFixed(k))` is modelled as
rounding to `k` decimal places with exact ties rounded toward `+∞` (ECMA-262
picks the larger candidate integer on a tie).  Non-finite results of the
underlying float arithmetic (`Infinity`, `NaN`) are tracked explicitly by the
`JNum` type where the code can actually produce them (the percentage-error
pipeline, which divides by an actual price that may be zero).
-/

/-- Rounding to 4 decimal places: model of `Number(x.toFixed(4))` on a finite
rational value. -/
def round4 (q : ℚ) : ℚ := ((⌊q * 10000 + 1 / 2⌋ : ℤ) : ℚ) / 10000

/-- Rounding to 2 decimal places: model of `Number(x.toFixed(2))` on a finite
rational value. -/
def round2 (q : ℚ) : ℚ := ((⌊q * 100 + 1 / 2⌋ : ℤ) : ℚ) / 100

/-- Real-valued rounding to 4 decimal places, used where the JS code rounds an
irrational intermediate value (`Math.sqrt`). -/
noncomputable def round4R (x : ℝ) : ℝ := ((⌊x * 10000 + 1 / 2⌋ : ℤ) : ℝ) / 10000

/-- A JavaScript number as produced by the percentage-error pipeline: either a
finite value, `+Infinity`, or `NaN`.  Negative infinity never arises there
because every non-finite value passes through `Math.abs` first. -/
inductive JNum where
  | num (q : ℚ)
  | inf
  | nan
deriving DecidableEq

/-- JavaScript `+` on the values tracked by `JNum` (`NaN` is absorbing,
`Infinity + finite = Infinity`). -/
def JNum.add : JNum → JNum → JNum
  | nan, _ => nan
  | _, nan => nan
  | inf, _ => inf
  | _, inf => inf
  | num a, num b => num (a + b)

/-- JavaScript division of a `JNum` by a list length (a natural number).
Dividing a finite value by `0` gives `NaN` when the numerator is `0` and an
infinity otherwise; in this development the numerator of that case is always a
sum of absolute values, hence nonnegative, so `inf` is the faithful result. -/
def JNum.divNat : JNum → ℕ → JNum
  | nan, _ => nan
  | inf, _ => inf
  | num q, 0 => if q = 0 then nan else inf
  | num q, Nat.succ n => num (q / (Nat.succ n : ℚ))

/-- Effect of `Number(x.toFixed(2))` on a `JNum`: `Infinity` and `NaN` round-trip to
themselves, finite values are rounded. -/
def JNum.fix2 : JNum → JNum
  | num q => num (round2 q)
  | inf => inf
  | nan => nan

/-- JavaScript `x || 0`: `NaN` (and `0`, a fixed point) are falsy and replaced
by `0`; `Infinity` and nonzero finite values are kept. -/
def JNum.orZero : JNum → JNum
  | nan => num 0
  | x => x

/-! ## Technical indicators (`technicalIndicators.js`) -/

/-- Model of `calculateSMA(prices, period)`: `null` when fewer prices than the period,
otherwise the mean of the last `period` prices (`prices.slice(-period)`). -/
def calculateSMA (prices : List ℚ) (period : ℕ) : Option ℚ :=
  if prices.length < period then none
  else some ((prices.drop (prices.length - period)).sum / (period : ℚ))

/-- Model of `calculateEMA(prices, period)`: `null` when fewer prices than the period,
otherwise the usual exponential moving average seeded with the mean of the
first `period` prices. -/
def calculateEMA (prices : List ℚ) (period : ℕ) : Option ℚ :=
  if prices.length < period then none
  else
    let multiplier : ℚ := 2 / ((period : ℚ) + 1)
    let ema0 := (prices.take period).sum / (period : ℚ)
    some ((prices.drop period).foldl
      (fun ema p => p * multiplier + ema * (1 - multiplier)) ema0)

/-- The list of consecutive price changes `prices[i] - prices[i-1]`. -/
def priceChanges (prices : List ℚ) : List ℚ :=
  (prices.tail.zip prices).map fun ba => ba.1 - ba.2

/-- The trailing `period` price changes used by the RSI loop
(`for i = changes.length - period; i < changes.length`). -/
def rsiRecentChanges (prices : List ℚ) (period : ℕ) : List ℚ :=
  (priceChanges prices).drop ((priceChanges prices).length - period)

/-- Total gains over the trailing changes (`if change > 0: gains += change`). -/
def rsiGains (prices : List ℚ) (period : ℕ) : ℚ :=
  ((rsiRecentChanges prices period).map fun c => if 0 < c then c else 0).sum

/-- Total losses over the trailing changes
(`else losses += Math.abs(change)`). -/
def rsiLosses (prices : List ℚ) (period : ℕ) : ℚ :=
  ((rsiRecentChanges prices period).map fun c => if 0 < c then 0 else |c|).sum

/-- Model of `calculateRSI(prices, period)`: `null` when `prices.length < period + 1`;
`100` when the average loss is exactly `0`; otherwise
`100 - 100 / (1 + avgGain / avgLoss)`. -/
def calculateRSI (prices : List ℚ) (period : ℕ) : Option ℚ :=
  if prices.length < period + 1 then none
  else
    let avgGain := rsiGains prices period / (period : ℚ)
    let avgLoss := rsiLosses prices period / (period : ℚ)
    if avgLoss = 0 then some 100
    else some (100 - 100 / (1 + avgGain / avgLoss))

/-- The simple returns `(prices[i] - prices[i-1]) / prices[i-1]`, kept only
when `prices[i-1] > 0`, exactly as the volatility loop guards its push. -/
def returnsOf (prices : List ℚ) : List ℚ :=
  (prices.tail.zip prices).filterMap fun ba =>
    if 0 < ba.2 then some ((ba.1 - ba.2) / ba.2) else none

/-- Mean of a list of rationals (`reduce(+) / length`).  For the empty list the
JS code would produce `NaN`; every theorem below only uses this on non-empty
lists. -/
def meanOf (l : List ℚ) : ℚ := l.sum / (l.length : ℚ)

/-- Population variance of a list (`reduce(sum + (r - mean)^2) / length`). -/
def varianceOf (l : List ℚ) : ℚ :=
  (l.map fun r => (r - meanOf l) ^ 2).sum / (l.length : ℚ)

/-- Model of `calculateVolatility(prices)`: `null` when fewer than 2 prices, otherwise
the standard deviation of the simple returns, annualised by `sqrt(365)` and
expressed as a percentage: `(stdDev * Math.sqrt(365)) * 100`. -/
noncomputable def calculateVolatility (prices : List ℚ) : Option ℝ :=
  if prices.length < 2 then none
  else some ((Real.sqrt ((varianceOf (returnsOf prices) : ℚ) : ℝ) *
    Real.sqrt 365) * 100)

/-- Result record of `calculateTrend`. -/
structure Trend where
  direction : String
  strength : ℚ
  priceChange : ℚ
deriving DecidableEq

/-- Model of `calculateTrend(prices)`: neutral with zero strength for fewer than 10
prices; otherwise a linear-regression slope converted to a clamped strength,
and a direction from the overall percent change. -/
def calculateTrend (prices : List ℚ) : Trend :=
  if prices.length < 10 then
    { direction := "neutral", strength := 0, priceChange := 0 }
  else
    let first := prices.headD 0
    let last := prices.getLastD 0
    let priceChange := (last - first) / first * 100
    let n : ℚ := prices.length
    let sumX := (prices.enum.map fun ip => (ip.1 : ℚ)).sum
    let sumY := prices.sum
    let sumXY := (prices.enum.map fun ip => (ip.1 : ℚ) * ip.2).sum
    let sumX2 := (prices.enum.map fun ip => (ip.1 : ℚ) * (ip.1 : ℚ)).sum
    let slope := (n * sumXY - sumX * sumY) / (n * sumX2 - sumX * sumX)
    let avgPrice := sumY / n
    let strength := |slope / avgPrice * 100|
    let direction :=
      if priceChange > 1 then "uptrend"
      else if priceChange < -1 then "downtrend"
      else "neutral"
    { direction := direction,
      strength := min 100 (max 0 (strength * 100)),
      priceChange := priceChange }

/-- The `prices.filter(p => p && p > 0)` step of `calculateAllIndicators`:
`null`/`NaN` entries (modelled as `none`) and non-positive numbers are
discarded. -/
def validPricesOf (prices : List (Option ℚ)) : List ℚ :=
  prices.filterMap fun o => o.bind fun p => if 0 < p then some p else none

/-- Result record of `calculateAllIndicators`. -/
structure Indicators where
  sma7 : Option ℚ
  sma30 : Option ℚ
  ema12 : Option ℚ
  rsi : Option ℚ
  volatility : Option ℝ
  trend : Trend
  currentPrice : ℚ

/-- Model of `calculateAllIndicators(prices, currentPrice)`: filters the prices to the
valid (strictly positive, non-null) ones and computes every indicator on that
filtered list. -/
noncomputable def calculateAllIndicators (prices : List (Option ℚ))
    (currentPrice : ℚ) : Indicators :=
  { sma7 := calculateSMA (validPricesOf prices) 7
    sma30 := calculateSMA (validPricesOf prices) 30
    ema12 := calculateEMA (validPricesOf prices) 12
    rsi := calculateRSI (validPricesOf prices) 14
    volatility := calculateVolatility (validPricesOf prices)
    trend := calculateTrend (validPricesOf prices)
    currentPrice := currentPrice }

/-! ## Scoring (`backtestingService.js`, `calculateMetrics`) -/

/-- One per-index percentage error: `Math.abs((pred - actual) / actual) * 100`.
The division is unguarded in the source; dividing by an actual price of `0`
yields `NaN` when the numerator is also `0` and an infinity otherwise (the
subsequent `Math.abs` makes it `+Infinity`). -/
def pctErr (p a : ℚ) : JNum :=
  if a = 0 then (if p = 0 then JNum.nan else JNum.inf)
  else JNum.num (|(p - a) / a| * 100)

/-- The `errors` array: per-index `Math.abs(pred - actual)`. -/
def absErrorsOf (predicted actual : List ℚ) : List ℚ :=
  (predicted.zip actual).map fun pa => |pa.1 - pa.2|

/-- The `percentageErrors` array. -/
def pctErrorsOf (predicted actual : List ℚ) : List JNum :=
  (predicted.zip actual).map fun pa => pctErr pa.1 pa.2

/-- The `directionalCorrect` array.  The base price at index `i` is
`currentPrice` for `i = 0` and `actual[i-1]` afterwards, so the base-price
stream is `currentPrice :: actual` truncated by the zip.  An entry is `true`
when `(pred > base)` and `(actual > base)` classify the same way (`'up'` vs
`'down'`: equality to the base counts as `'down'`). -/
def dirCorrectOf (predicted actual : List ℚ) (currentPrice : ℚ) : List Bool :=
  (predicted.zip (actual.zip (currentPrice :: actual))).map fun pab =>
    decide (pab.2.2 < pab.1) == decide (pab.2.2 < pab.2.1)

/-- The exact (pre-rounding) mean absolute error, the local `mae` of the
source before `Number(mae.toFixed(4))`. -/
def maeExact (predicted actual : List ℚ) : ℚ :=
  (absErrorsOf predicted actual).sum / ((absErrorsOf predicted actual).length : ℚ)

/-- The exact (pre-rounding) mean percentage error, the local `mape` of the
source before `Number(mape.toFixed(2))`. -/
def mapeExact (predicted actual : List ℚ) : JNum :=
  ((pctErrorsOf predicted actual).foldl JNum.add (JNum.num 0)).divNat
    (pctErrorsOf predicted actual).length

/-- The exact mean squared error, the local `mse` of the source; the source
reports `rmse = Number(Math.sqrt(mse).toFixed(4))`, exposed below as
`rmseOf`. -/
def mseExact (predicted actual : List ℚ) : ℚ :=
  ((absErrorsOf predicted actual).map fun e => e * e).sum /
    ((absErrorsOf predicted actual).length : ℚ)

/-- The exact (pre-rounding) directional accuracy:
`directionalCorrect.filter(Boolean).length / directionalCorrect.length`. -/
def dirAccExact (predicted actual : List ℚ) (currentPrice : ℚ) : ℚ :=
  (((dirCorrectOf predicted actual currentPrice).filter fun b => b).length : ℚ) /
    ((dirCorrectOf predicted actual currentPrice).length : ℚ)

/-- The metrics record returned by `calculateMetrics`.  The source stores
`rmse`; since that value is an (irrational) square root we store the exact
`mse` and expose the reported value through `rmseOf`. -/
structure Metrics where
  absoluteErrors : List ℚ
  percentageErrors : List JNum
  mae : ℚ
  mape : JNum
  mse : ℚ
  directionalAccuracy : ℚ
  directionalCorrect : List Bool
deriving DecidableEq

/-- The body of `calculateMetrics` on equal-length arrays: every scalar metric
is rounded before being stored (`toFixed(4)` for `mae`, `rmse` and
`directionalAccuracy`, `toFixed(2)` for `mape`). -/
def metricsOf (predicted actual : List ℚ) (currentPrice : ℚ) : Metrics :=
  { absoluteErrors := absErrorsOf predicted actual
    percentageErrors := pctErrorsOf predicted actual
    mae := round4 (maeExact predicted actual)
    mape := (mapeExact predicted actual).fix2
    mse := mseExact predicted actual
    directionalAccuracy := round4 (dirAccExact predicted actual currentPrice)
    directionalCorrect := dirCorrectOf predicted actual currentPrice }

/-- Model of `calculateMetrics(predicted, actual, currentPrice)`: throws (modelled as
`none`) when the arrays have different lengths, otherwise the metrics
record. -/
def calculateMetrics (predicted actual : List ℚ) (currentPrice : ℚ) :
    Option Metrics :=
  if predicted.length = actual.length then
    some (metricsOf predicted actual currentPrice)
  else none

/-- The `rmse` value the source stores:
`Number(Math.sqrt(mse).toFixed(4))`. -/
noncomputable def rmseOf (m : Metrics) : ℝ :=
  round4R (Real.sqrt ((m.mse : ℚ) : ℝ))

/-! ## Predicted-path synthesis (`runBacktest`, step 8) -/

/-- The predicted-price array built in step 8 of `runBacktest`: for a single
day the scalar prediction itself, otherwise
`currentPrice + (predictedPrice - currentPrice) / daysToPredict * i` for
`i = 1 .. daysToPredict`. -/
def synthesizedPath (predictedPrice currentPrice : ℚ) (daysToPredict : ℕ) :
    List ℚ :=
  if daysToPredict = 1 then [predictedPrice]
  else
    let priceChange := predictedPrice - currentPrice
    let dailyChange := priceChange / (daysToPredict : ℚ)
    (List.range daysToPredict).map fun i : ℕ =>
      currentPrice + dailyChange * ((i : ℚ) + 1)

/-! ## Batch runs (`runMultipleBacktests`, `calculateAggregateMetrics`) -/

/-- A backtest result, reduced to the part the aggregation reads
(`r.metrics`). -/
structure BacktestResult where
  metrics : Metrics
deriving DecidableEq

/-- The aggregate record of `calculateAggregateMetrics`.  As with `Metrics`,
the real-valued `averageRMSE` is exposed separately (`averageRMSEOf`). -/
structure AggregateMetrics where
  averageMAE : ℚ
  averageMAPE : JNum
  averageDirectionalAccuracy : ℚ
deriving DecidableEq

/-- Model of `calculateAggregateMetrics(results)`: all-zero record for an empty batch;
otherwise each total is a sum of the stored per-trial metrics (`x || 0` is the
identity on the finite nonnegative values stored here and sends `NaN` to `0`),
divided by the number of results and rounded again. -/
def calculateAggregateMetrics (results : List BacktestResult) :
    AggregateMetrics :=
  if results.length = 0 then
    { averageMAE := 0, averageMAPE := JNum.num 0,
      averageDirectionalAccuracy := 0 }
  else
    let totalMAE := (results.map fun r => r.metrics.mae).sum
    let totalMAPE :=
      (results.map fun r => r.metrics.mape.orZero).foldl JNum.add (JNum.num 0)
    let totalDirAcc :=
      (results.map fun r => r.metrics.directionalAccuracy).sum
    { averageMAE := round4 (totalMAE / (results.length : ℚ))
      averageMAPE := (totalMAPE.divNat results.length).fix2
      averageDirectionalAccuracy :=
        round4 (totalDirAcc / (results.length : ℚ)) }

/-- The `averageRMSE` field of the aggregate record:
`Number((totalRMSE / results.length).toFixed(4))` over the stored (rounded)
per-trial `rmse` values, `0` for an empty batch. -/
noncomputable def averageRMSEOf (results : List BacktestResult) : ℝ :=
  if results.length = 0 then 0
  else round4R ((results.map fun r => rmseOf r.metrics).sum /
    ((results.length : ℚ) : ℝ))

/-- The test dates visited by the `while (currentDate <= endDate)` loop of
`runMultipleBacktests`: `startDate, startDate + stepDays, ...` while `≤
endDate` (dates as integer day numbers; `0 < stepDays` guarantees the loop
terminates). -/
def testDates (startDate endDate : ℤ) (stepDays : ℕ) (h : 0 < stepDays) :
    List ℤ :=
  if startDate ≤ endDate then
    startDate :: testDates (startDate + stepDays) endDate stepDays h
  else []
termination_by (endDate + 1 - startDate).toNat
decreasing_by omega

/-- Return record of `runMultipleBacktests`. -/
structure MultiBacktestSummary where
  totalTests : ℕ
  results : List BacktestResult
  aggregateMetrics : AggregateMetrics
deriving DecidableEq

/-- Model of `runMultipleBacktests`: each trial runs in a `try`/`catch`; a failed trial
(`Except.error`) is logged and skipped, a successful one is pushed onto
`results`.  The abstract runner `run` stands for the awaited `runBacktest`
call at each date. -/
def runMultipleBacktests {ε : Type} (run : ℤ → Except ε BacktestResult)
    (startDate endDate : ℤ) (stepDays : ℕ) (h : 0 < stepDays) :
    MultiBacktestSummary :=
  let results :=
    (testDates startDate endDate stepDays h).filterMap fun d => (run d).toOption
  { totalTests := results.length
    results := results
    aggregateMetrics := calculateAggregateMetrics results }

/-- A concrete one-trial batch used to instantiate the aggregate theorems. -/
def sampleTrials : List (List ℚ × List ℚ × ℚ) := [([1, 5, 5], [2, 5, 5], 1)]

/-- A concrete runner for `runMultipleBacktests`: succeeds on day `0`, fails
on every other day. -/
def sampleRun (d : ℤ) : Except Unit BacktestResult :=
  if d = 0 then Except.ok ⟨metricsOf [1] [1] 1⟩ else Except.error ()

/-! ## Helper lemmas -/

lemma zip_self_eq {α : Type} (l : List α) : l.zip l = l.map fun x => (x, x) := by
  induction l with
  | nil => rfl
  | cons x xs ih => simp [List.zip_cons_cons, ih]

lemma foldl_jadd_num_zero (l : List JNum) (q : ℚ)
    (h : ∀ x ∈ l, x = JNum.num 0) :
    l.foldl JNum.add (JNum.num q) = JNum.num q := by
  induction l generalizing q with
  | nil => rfl
  | cons x xs ih =>
    have hx : x = JNum.num 0 := h x (by simp)
    have : JNum.add (JNum.num q) x = JNum.num q := by
      rw [hx]; simp [JNum.add]
    rw [List.foldl_cons, this]
    exact ih q fun y hy => h y (by simp [hy])

lemma sum_eq_zero_iff_of_nonneg (l : List ℚ) (h : ∀ x ∈ l, 0 ≤ x) :
    l.sum = 0 ↔ ∀ x ∈ l, x = 0 := by
  induction l with
  | nil => simp
  | cons x xs ih =>
    have hx : 0 ≤ x := h x (by simp)
    have hxs : ∀ y ∈ xs, 0 ≤ y := fun y hy => h y (by simp [hy])
    have hs : 0 ≤ xs.sum := List.sum_nonneg hxs
    constructor
    · intro h0
      have hx0 : x = 0 := by
        by_contra hne
        have : 0 < x := lt_of_le_of_ne hx (Ne.symm hne)
        simp only [List.sum_cons] at h0
        linarith
      have hsum : xs.sum = 0 := by
        simp only [List.sum_cons, hx0, zero_add] at h0
        exact h0
      intro y hy
      rcases List.mem_cons.mp hy with hy | hy
      · rw [hy, hx0]
      · exact (ih hxs).mp hsum y hy
    · intro hall
      simp only [List.sum_cons]
      rw [hall x (by simp), zero_add]
      exact (ih hxs).mpr fun y hy => hall y (by simp [hy])

lemma length_filterMap_eq_countP {α β : Type} (f : α → Option β) (l : List α) :
    (l.filterMap f).length = l.countP fun a => (f a).isSome := by
  induction l with
  | nil => rfl
  | cons x xs ih =>
    cases hx : f x with
    | none => simp [List.filterMap_cons, hx, List.countP_cons, ih]
    | some b => simp [List.filterMap_cons, hx, List.countP_cons, ih]

/-- C9: for every price sequence shorter than the window, SMA and EMA both
return absent (`null`), never a numeric value and never an exception. -/
theorem sma_ema_absent_when_short (prices : List ℚ) (window : ℕ)
    (h : prices.length < window) :
    calculateSMA prices window = none ∧ calculateEMA prices window = none := by
  simp [calculateSMA, calculateEMA, h]

theorem sma_ema_absent_when_short_witness :
    calculateSMA [1] 3 = none ∧ calculateEMA [1] 3 = none :=
  sma_ema_absent_when_short [1] 3 (by simp)

/-- C10: `calculateAllIndicators` is invariant under removal of the entries
that its own `filter(p => p && p > 0)` discards. -/
theorem allIndicators_filter_invariant (prices : List (Option ℚ))
    (currentPrice : ℚ) :
    calculateAllIndicators prices currentPrice =
      calculateAllIndicators
        (prices.filter fun o => o.any fun p => decide (0 < p)) currentPrice := by
  have h : validPricesOf (prices.filter fun o => o.any fun p => decide (0 < p)) =
      validPricesOf prices := by
    induction prices with
    | nil => rfl
    | cons o rest ih =>
      cases o with
      | none => simpa [validPricesOf, List.filter_cons] using ih
      | some p =>
        by_cases hp : 0 < p
        · simpa [validPricesOf, List.filter_cons, List.filterMap_cons, hp] using ih
        · simpa [validPricesOf, List.filter_cons, List.filterMap_cons, hp] using ih
  simp only [calculateAllIndicators, h]

/-- C6: synthesized path is linear interpolation. -/
theorem synthesizedPath_linear :
    (∀ (target current : ℚ) (n i : ℕ), 1 ≤ n → i < n →
      (synthesizedPath target current n)[i]? =
        some (current + (target - current) * ((i : ℚ) + 1) / (n : ℚ))) ∧
    synthesizedPath 110 100 2 = [105, 110] := by
  constructor
  · intro target current n i h1 h2
    by_cases hn : n = 1
    · subst hn
      have hi : i = 0 := by omega
      subst hi
      simp [synthesizedPath]
    · simp only [synthesizedPath, if_neg hn]
      rw [List.getElem?_map, List.getElem?_range h2]
      show some _ = some _
      congr 1
      ring
  · norm_num [synthesizedPath, List.range_succ]

theorem synthesizedPath_linear_witness :
    (synthesizedPath 110 100 2)[1]? =
      some (100 + (110 - 100) * (((1 : ℕ) : ℚ) + 1) / ((2 : ℕ) : ℚ)) :=
  synthesizedPath_linear.1 110 100 2 1 (by norm_num) (by norm_num)

/-- C3 counterexample: scoring predicted `[1]` against actual `[0]` produces a
percentage error of `Infinity`, not the `0` required by the claim. -/
theorem pctError_zero_guard_counterexample :
    (calculateMetrics [1] [0] 1).map Metrics.percentageErrors = some [JNum.inf] ∧
    JNum.inf ≠ JNum.num 0 := by
  constructor
  · simp [calculateMetrics, metricsOf, pctErrorsOf, pctErr]
  · simp

/-- C3 amended: per-index percentage error. -/
theorem pctError_per_index (predicted actual : List ℚ) (currentPrice : ℚ)
    (i : ℕ) (p a : ℚ) (hlen : predicted.length = actual.length)
    (hp : predicted[i]? = some p) (ha : actual[i]? = some a) :
    calculateMetrics predicted actual currentPrice =
      some (metricsOf predicted actual currentPrice) ∧
    (metricsOf predicted actual currentPrice).percentageErrors[i]? =
      some (pctErr p a) ∧
    (a ≠ 0 → pctErr p a = JNum.num (|(p - a) / a| * 100)) ∧
    (a = 0 → pctErr p a = if p = 0 then JNum.nan else JNum.inf) := by
  refine ⟨by simp [calculateMetrics, hlen], ?_, ?_, ?_⟩
  · have hz : (predicted.zip actual)[i]? = some (p, a) :=
      List.getElem?_zip_eq_some.mpr ⟨hp, ha⟩
    simp [metricsOf, pctErrorsOf, List.getElem?_map, hz]
  · intro h; simp [pctErr, h]
  · intro h; simp [pctErr, h]

theorem pctError_per_index_witness :
    calculateMetrics [1] [0] 1 = some (metricsOf [1] [0] 1) ∧
    (metricsOf [1] [0] 1).percentageErrors[0]? = some (pctErr 1 0) ∧
    ((0 : ℚ) ≠ 0 → pctErr 1 0 = JNum.num (|((1 : ℚ) - 0) / 0| * 100)) ∧
    ((0 : ℚ) = 0 → pctErr 1 0 = if (1 : ℚ) = 0 then JNum.nan else JNum.inf) :=
  pctError_per_index [1] [0] 1 0 1 0 rfl rfl rfl

/-- C5 counterexample: at a flat index both directions classify as `'down'`,
so the entry is a match (`true`), not the mismatch (`false`) the claim
states. -/
theorem scenario2_counterexample :
    (calculateMetrics [100, 105] [100, 105] 100).map Metrics.directionalCorrect ≠
      some [false, true] := by
  simp [calculateMetrics, metricsOf, dirCorrectOf]

/-- C5 amended: the scenario yields `mae = 0`, `mape = 0`, `rmse = 0`,
`directionalAccuracy = 1`, and `directionalCorrect = [true, true]`. -/
theorem scenario2_amended :
    calculateMetrics [100, 105] [100, 105] 100 =
      some (metricsOf [100, 105] [100, 105] 100) ∧
    (metricsOf [100, 105] [100, 105] 100).mae = 0 ∧
    (metricsOf [100, 105] [100, 105] 100).mape = JNum.num 0 ∧
    rmseOf (metricsOf [100, 105] [100, 105] 100) = 0 ∧
    (metricsOf [100, 105] [100, 105] 100).directionalAccuracy = 1 ∧
    (metricsOf [100, 105] [100, 105] 100).directionalCorrect = [true, true] := by
  refine ⟨by simp [calculateMetrics], ?_, ?_, ?_, ?_, ?_⟩
  · norm_num [metricsOf, maeExact, absErrorsOf, round4]
  · norm_num [metricsOf, mapeExact, pctErrorsOf, pctErr, JNum.add, JNum.divNat,
      JNum.fix2, round2]
  · have hmse : (metricsOf [100, 105] [100, 105] 100).mse = 0 := by
      norm_num [metricsOf, mseExact, absErrorsOf]
    rw [rmseOf, hmse]
    norm_num [round4R]
  · norm_num [metricsOf, dirAccExact, dirCorrectOf, round4]
  · simp [metricsOf, dirCorrectOf]

lemma jnum_divNat_succ (q : ℚ) (m : ℕ) :
    (JNum.num q).divNat (m + 1) = JNum.num (q / ((m + 1 : ℕ) : ℚ)) := rfl

lemma jnum_fix2_eq (q : ℚ) : (JNum.num q).fix2 = JNum.num (round2 q) := rfl

lemma zip_zip_fst {α β : Type} (l : List α) (l' : List β) (z : α × α × β)
    (hz : z ∈ l.zip (l.zip l')) : z.1 = z.2.1 := by
  induction l generalizing l' with
  | nil => simp at hz
  | cons x xs ih =>
    cases l' with
    | nil => simp at hz
    | cons y ys =>
      simp only [List.zip_cons_cons, List.mem_cons] at hz
      rcases hz with hz | hz
      · rw [hz]
      · exact ih ys hz

/-- C8 counterexample: scoring the sequence `[0]` against itself gives
`mape = NaN` (an unguarded `0/0`), not `0`. -/
theorem scorer_idempotent_counterexample :
    (calculateMetrics [0] [0] 1).map Metrics.mape = some JNum.nan ∧
    JNum.nan ≠ JNum.num 0 := by
  constructor
  · simp [calculateMetrics, metricsOf, mapeExact, pctErrorsOf, pctErr,
      JNum.add, JNum.divNat, JNum.fix2]
  · simp

/-- C8 amended: idempotence on sequences with no zero entry. -/
theorem scorer_idempotent (s : List ℚ) (c : ℚ) (hne : s ≠ [])
    (hz : ∀ x ∈ s, x ≠ 0) :
    calculateMetrics s s c = some (metricsOf s s c) ∧
    (metricsOf s s c).mae = 0 ∧
    (metricsOf s s c).mape = JNum.num 0 ∧
    rmseOf (metricsOf s s c) = 0 ∧
    (metricsOf s s c).directionalAccuracy = 1 := by
  have hzip : s.zip s = s.map fun x => (x, x) := zip_self_eq s
  have habs : absErrorsOf s s = s.map fun _ => (0 : ℚ) := by
    simp [absErrorsOf, hzip, List.map_map, Function.comp_def]
  have habs_sum : (absErrorsOf s s).sum = 0 := by
    rw [habs]; simp
  refine ⟨by simp [calculateMetrics], ?_, ?_, ?_, ?_⟩
  · rw [metricsOf]
    show round4 (maeExact s s) = 0
    rw [maeExact, habs_sum, zero_div]
    norm_num [round4]
  · rw [metricsOf]
    show (mapeExact s s).fix2 = JNum.num 0
    have hall : ∀ e ∈ pctErrorsOf s s, e = JNum.num 0 := by
      intro e he
      simp only [pctErrorsOf, hzip, List.map_map, List.mem_map,
        Function.comp_def] at he
      obtain ⟨x, hx, rfl⟩ := he
      simp [pctErr, hz x hx]
    obtain ⟨m, hm⟩ : ∃ m, (pctErrorsOf s s).length = m + 1 := by
      cases s with
      | nil => exact absurd rfl hne
      | cons a as => exact ⟨((a :: as).zip (a :: as)).length - 1, by
          simp [pctErrorsOf, List.length_zip]⟩
    rw [mapeExact, foldl_jadd_num_zero _ _ hall, hm, jnum_divNat_succ,
      zero_div, jnum_fix2_eq]
    norm_num [round2]
  · rw [rmseOf]
    have hmse : (metricsOf s s c).mse = 0 := by
      rw [metricsOf]
      show mseExact s s = 0
      rw [mseExact, habs]
      simp
    rw [hmse]
    norm_num [round4R, Real.sqrt_zero]
  · rw [metricsOf]
    show round4 (dirAccExact s s c) = 1
    have hall : ∀ b ∈ dirCorrectOf s s c, b = true := by
      intro b hb
      simp only [dirCorrectOf, List.mem_map] at hb
      obtain ⟨z, hzm, rfl⟩ := hb
      rw [zip_zip_fst s (c :: s) z hzm]
      exact beq_self_eq_true _
    have hfilter : (dirCorrectOf s s c).filter (fun b => b) = dirCorrectOf s s c :=
      List.filter_eq_self.mpr fun b hb => by rw [hall b hb]
    have hlen : (dirCorrectOf s s c).length = s.length := by
      simp only [dirCorrectOf, List.length_map, List.length_zip,
        List.length_cons]
      omega
    have hlen0 : s.length ≠ 0 := fun h => hne (List.eq_nil_of_length_eq_zero h)
    rw [dirAccExact, hfilter, hlen, div_self (by exact_mod_cast hlen0)]
    norm_num [round4]

theorem scorer_idempotent_witness :
    calculateMetrics [1, 2] [1, 2] 5 = some (metricsOf [1, 2] [1, 2] 5) ∧
    (metricsOf [1, 2] [1, 2] 5).mae = 0 ∧
    (metricsOf [1, 2] [1, 2] 5).mape = JNum.num 0 ∧
    rmseOf (metricsOf [1, 2] [1, 2] 5) = 0 ∧
    (metricsOf [1, 2] [1, 2] 5).directionalAccuracy = 1 :=
  scorer_idempotent [1, 2] 5 (by simp) (by norm_num)

/-- C4: RSI over 14 periods on at least 15 positive prices is in `[0, 100]`,
and equals `100` when the trailing average loss is `0`. -/
theorem rsi_in_range (prices : List ℚ) (h : 15 ≤ prices.length)
    (_hpos : ∀ p ∈ prices, 0 < p) :
    ∃ r, calculateRSI prices 14 = some r ∧ 0 ≤ r ∧ r ≤ 100 ∧
      (rsiLosses prices 14 = 0 → r = 100) := by
  have hguard : ¬ prices.length < 14 + 1 := by omega
  have hg : 0 ≤ rsiGains prices 14 := by
    apply List.sum_nonneg
    intro x hx
    simp only [List.mem_map] at hx
    obtain ⟨c, -, rfl⟩ := hx
    split <;> [linarith; rfl]
  have hl : 0 ≤ rsiLosses prices 14 := by
    apply List.sum_nonneg
    intro x hx
    simp only [List.mem_map] at hx
    obtain ⟨c, -, rfl⟩ := hx
    split
    · rfl
    · exact abs_nonneg c
  by_cases hL : rsiLosses prices 14 = 0
  · refine ⟨100, ?_, by norm_num, by norm_num, fun _ => rfl⟩
    simp [calculateRSI, hguard, hL]
  · have hlpos : 0 < rsiLosses prices 14 := lt_of_le_of_ne hl (Ne.symm hL)
    have hL' : rsiLosses prices 14 / ((14 : ℕ) : ℚ) ≠ 0 := by
      rw [div_ne_zero_iff]
      norm_num [hL]
    have hrs : 0 ≤ rsiGains prices 14 / ((14 : ℕ) : ℚ) /
        (rsiLosses prices 14 / ((14 : ℕ) : ℚ)) := by
      apply div_nonneg (div_nonneg hg (by norm_num))
      apply div_nonneg hl (by norm_num)
    have h1 : (0 : ℚ) < 1 + rsiGains prices 14 / ((14 : ℕ) : ℚ) /
        (rsiLosses prices 14 / ((14 : ℕ) : ℚ)) := by linarith
    have h2 : 100 / (1 + rsiGains prices 14 / ((14 : ℕ) : ℚ) /
        (rsiLosses prices 14 / ((14 : ℕ) : ℚ))) ≤ 100 :=
      div_le_self (by norm_num) (by linarith)
    have h3 : 0 < 100 / (1 + rsiGains prices 14 / ((14 : ℕ) : ℚ) /
        (rsiLosses prices 14 / ((14 : ℕ) : ℚ))) := div_pos (by norm_num) h1
    refine ⟨100 - 100 / (1 + rsiGains prices 14 / ((14 : ℕ) : ℚ) /
      (rsiLosses prices 14 / ((14 : ℕ) : ℚ))), ?_, by linarith, by linarith,
      fun h0 => absurd h0 hL⟩
    simp only [calculateRSI, hguard, if_false, if_neg hL']

theorem rsi_in_range_witness :
    ∃ r, calculateRSI (List.replicate 15 (1 : ℚ)) 14 = some r ∧ 0 ≤ r ∧
      r ≤ 100 ∧ (rsiLosses (List.replicate 15 (1 : ℚ)) 14 = 0 → r = 100) :=
  rsi_in_range (List.replicate 15 1) (by simp)
    (fun p hp => by rw [List.eq_of_mem_replicate hp]; norm_num)

lemma sum_sq_div_nonneg (l : List ℚ) : 0 ≤ varianceOf l := by
  apply div_nonneg _ (by positivity)
  apply List.sum_nonneg
  intro x hx
  simp only [List.mem_map] at hx
  obtain ⟨r, -, rfl⟩ := hx
  positivity

lemma varianceOf_eq_zero_iff (l : List ℚ) (hne : l ≠ []) :
    varianceOf l = 0 ↔ ∀ r ∈ l, r = meanOf l := by
  have hlen : (0 : ℚ) < (l.length : ℚ) := by
    have := List.length_pos.mpr hne
    exact_mod_cast this
  rw [varianceOf, div_eq_zero_iff]
  constructor
  · intro h
    rcases h with h | h
    · intro r hr
      have hnn : ∀ x ∈ l.map fun r => (r - meanOf l) ^ 2, 0 ≤ x := by
        intro x hx
        simp only [List.mem_map] at hx
        obtain ⟨y, -, rfl⟩ := hx
        positivity
      have := (sum_eq_zero_iff_of_nonneg _ hnn).mp h
        ((r - meanOf l) ^ 2) (List.mem_map_of_mem _ hr)
      have hr0 : r - meanOf l = 0 := by
        exact pow_eq_zero_iff (n := 2) (by norm_num) |>.mp this
      linarith
    · exact absurd h (by positivity)
  · intro h
    left
    apply List.sum_eq_zero
    intro x hx
    simp only [List.mem_map] at hx
    obtain ⟨y, hy, rfl⟩ := hx
    rw [h y hy]
    ring

/-- C7 counterexample: `[1, 2, 4]` has differing consecutive pairs but both
returns equal `1`, so the standard deviation — hence the volatility — is `0`,
not strictly positive. -/
theorem volatility_counterexample :
    ¬ ∃ v : ℝ, calculateVolatility [1, 2, 4] = some v ∧ 0 < v := by
  have hvar : varianceOf (returnsOf [1, 2, 4]) = 0 := by
    norm_num [varianceOf, returnsOf, meanOf, List.filterMap]
  rintro ⟨v, hv, hpos⟩
  rw [calculateVolatility] at hv
  norm_num [hvar] at hv
  rw [← hv] at hpos
  exact lt_irrefl 0 hpos

/-- C7 amended: for positive sequences volatility is present, nonnegative,
zero on constant sequences, and zero exactly when all returns coincide. -/
theorem volatility_zero_iff (prices : List ℚ) (h2 : 2 ≤ prices.length)
    (hpos : ∀ p ∈ prices, 0 < p) :
    ∃ v : ℝ, calculateVolatility prices = some v ∧ 0 ≤ v ∧
      ((∀ a ∈ prices, ∀ b ∈ prices, a = b) → v = 0) ∧
      (v = 0 ↔ ∀ r ∈ returnsOf prices, r = meanOf (returnsOf prices)) := by
  have hguard : ¬ prices.length < 2 := by omega
  have hrne : returnsOf prices ≠ [] := by
    match prices, h2 with
    | a :: b :: rest, _ =>
      have ha : 0 < a := hpos a (by simp)
      simp [returnsOf, List.filterMap_cons, ha]
  have hvnn : (0 : ℝ) ≤ ((varianceOf (returnsOf prices) : ℚ) : ℝ) := by
    exact_mod_cast sum_sq_div_nonneg (returnsOf prices)
  have hiff : (Real.sqrt ((varianceOf (returnsOf prices) : ℚ) : ℝ) *
      Real.sqrt 365) * 100 = 0 ↔
      ∀ r ∈ returnsOf prices, r = meanOf (returnsOf prices) := by
    rw [mul_eq_zero, mul_eq_zero]
    have h365 : Real.sqrt 365 ≠ 0 := by
      refine ne_of_gt (Real.sqrt_pos.mpr (by norm_num))
    constructor
    · intro h
      rcases h with (h | h) | h
      · have : ((varianceOf (returnsOf prices) : ℚ) : ℝ) = 0 :=
          (Real.sqrt_eq_zero hvnn).mp h
        have hq : varianceOf (returnsOf prices) = 0 := by exact_mod_cast this
        exact (varianceOf_eq_zero_iff _ hrne).mp hq
      · exact absurd h h365
      · norm_num at h
    · intro h
      left; left
      have hq : varianceOf (returnsOf prices) = 0 :=
        (varianceOf_eq_zero_iff _ hrne).mpr h
      rw [hq]
      norm_num
  refine ⟨(Real.sqrt ((varianceOf (returnsOf prices) : ℚ) : ℝ) *
      Real.sqrt 365) * 100, by simp [calculateVolatility, hguard], by positivity,
      ?_, hiff⟩
  intro hid
  apply hiff.mpr
  have hall0 : ∀ r ∈ returnsOf prices, r = 0 := by
    intro r hr
    simp only [returnsOf, List.mem_filterMap] at hr
    obtain ⟨⟨b, a⟩, hmem, hfa⟩ := hr
    have hab := List.of_mem_zip hmem
    have hb : b ∈ prices := List.tail_subset prices hab.1
    have ha : a ∈ prices := hab.2
    have hba : b = a := hid b hb a ha
    split at hfa
    · cases hfa
      rw [hba, sub_self, zero_div]
    · cases hfa
  have hmean : meanOf (returnsOf prices) = 0 := by
    rw [meanOf, List.sum_eq_zero hall0, zero_div]
  intro r hr
  rw [hall0 r hr, hmean]

theorem volatility_zero_iff_witness :
    ∃ v : ℝ, calculateVolatility [1, 2] = some v ∧ 0 ≤ v ∧
      ((∀ a ∈ ([1, 2] : List ℚ), ∀ b ∈ ([1, 2] : List ℚ), a = b) → v = 0) ∧
      (v = 0 ↔ ∀ r ∈ returnsOf [1, 2], r = meanOf (returnsOf [1, 2])) :=
  volatility_zero_iff [1, 2] (by simp) (by norm_num)

/-- C1 counterexample: a single trial with exact `mae = 1/3` is stored rounded
to `0.3333`, and the aggregate average equals `0.3333`, not the exact mean
`1/3`. -/
theorem aggregate_unrounded_counterexample :
    (calculateMetrics [1, 5, 5] [2, 5, 5] 1).map
        (fun m => (calculateAggregateMetrics [⟨m⟩]).averageMAE) ≠
      some (maeExact [1, 5, 5] [2, 5, 5]) := by
  have h1 : calculateMetrics [1, 5, 5] [2, 5, 5] 1 =
      some (metricsOf [1, 5, 5] [2, 5, 5] 1) := by simp [calculateMetrics]
  rw [h1, Option.map_some']
  intro h
  have h2 := Option.some.inj h
  rw [calculateAggregateMetrics] at h2
  simp only [metricsOf, maeExact, absErrorsOf, List.zip_cons_cons,
    List.zip_nil_right, List.map_cons, List.map_nil, List.sum_cons,
    List.sum_nil, List.length_cons, List.length_nil, round4] at h2
  norm_num at h2

/-- C1 amended: every aggregate value is the rounding of the mean of the
*stored* (already rounded) per-trial metrics. -/
theorem aggregate_of_rounded (trials : List (List ℚ × List ℚ × ℚ))
    (hne : trials ≠ []) :
    (calculateAggregateMetrics
        (trials.map fun t => ⟨metricsOf t.1 t.2.1 t.2.2⟩)).averageMAE =
      round4 ((trials.map fun t => round4 (maeExact t.1 t.2.1)).sum /
        (trials.length : ℚ)) ∧
    (calculateAggregateMetrics
        (trials.map fun t => ⟨metricsOf t.1 t.2.1 t.2.2⟩)).averageDirectionalAccuracy =
      round4 ((trials.map fun t => round4 (dirAccExact t.1 t.2.1 t.2.2)).sum /
        (trials.length : ℚ)) ∧
    (calculateAggregateMetrics
        (trials.map fun t => ⟨metricsOf t.1 t.2.1 t.2.2⟩)).averageMAPE =
      ((((trials.map fun t =>
          ((mapeExact t.1 t.2.1).fix2).orZero)).foldl JNum.add
        (JNum.num 0)).divNat trials.length).fix2 ∧
    averageRMSEOf (trials.map fun t => ⟨metricsOf t.1 t.2.1 t.2.2⟩) =
      round4R ((trials.map fun t =>
          round4R (Real.sqrt ((mseExact t.1 t.2.1 : ℚ) : ℝ))).sum /
        ((trials.length : ℚ) : ℝ)) := by
  refine ⟨?_, ?_, ?_, ?_⟩
  · simp [calculateAggregateMetrics, hne, List.map_map, Function.comp_def,
      metricsOf]
  · simp [calculateAggregateMetrics, hne, List.map_map, Function.comp_def,
      metricsOf]
  · simp [calculateAggregateMetrics, hne, List.map_map, Function.comp_def,
      metricsOf]
  · simp [averageRMSEOf, hne, List.map_map, Function.comp_def, metricsOf,
      rmseOf]

theorem aggregate_of_rounded_witness :
    (calculateAggregateMetrics
        (sampleTrials.map fun t => ⟨metricsOf t.1 t.2.1 t.2.2⟩)).averageMAE =
      round4 ((sampleTrials.map fun t => round4 (maeExact t.1 t.2.1)).sum /
        (sampleTrials.length : ℚ)) ∧
    (calculateAggregateMetrics
        (sampleTrials.map fun t =>
          ⟨metricsOf t.1 t.2.1 t.2.2⟩)).averageDirectionalAccuracy =
      round4 ((sampleTrials.map fun t =>
          round4 (dirAccExact t.1 t.2.1 t.2.2)).sum /
        (sampleTrials.length : ℚ)) ∧
    (calculateAggregateMetrics
        (sampleTrials.map fun t => ⟨metricsOf t.1 t.2.1 t.2.2⟩)).averageMAPE =
      ((((sampleTrials.map fun t =>
          ((mapeExact t.1 t.2.1).fix2).orZero)).foldl JNum.add
        (JNum.num 0)).divNat sampleTrials.length).fix2 ∧
    averageRMSEOf (sampleTrials.map fun t => ⟨metricsOf t.1 t.2.1 t.2.2⟩) =
      round4R ((sampleTrials.map fun t =>
          round4R (Real.sqrt ((mseExact t.1 t.2.1 : ℚ) : ℝ))).sum /
        ((sampleTrials.length : ℚ) : ℝ)) :=
  aggregate_of_rounded sampleTrials (by simp [sampleTrials])

/-- C2: failed trials are skipped, `totalTests` counts the successes, the
aggregate is computed over the successes only, and an all-failure batch
reports all-zero aggregates. -/
theorem batch_failure_isolation {ε : Type} (run : ℤ → Except ε BacktestResult)
    (startDate endDate : ℤ) (stepDays : ℕ) (h : 0 < stepDays) :
    (runMultipleBacktests run startDate endDate stepDays h).totalTests =
      (testDates startDate endDate stepDays h).countP
        (fun d => ((run d).toOption).isSome) ∧
    (runMultipleBacktests run startDate endDate stepDays h).aggregateMetrics =
      calculateAggregateMetrics
        ((testDates startDate endDate stepDays h).filterMap fun d =>
          (run d).toOption) ∧
    (((testDates startDate endDate stepDays h).filterMap fun d =>
        (run d).toOption) = [] →
      (runMultipleBacktests run startDate endDate stepDays h).aggregateMetrics =
        { averageMAE := 0, averageMAPE := JNum.num 0,
          averageDirectionalAccuracy := 0 } ∧
      averageRMSEOf ((testDates startDate endDate stepDays h).filterMap fun d =>
        (run d).toOption) = 0) := by
  refine ⟨length_filterMap_eq_countP _ _, rfl, ?_⟩
  intro hnil
  constructor
  · show calculateAggregateMetrics _ = _
    rw [hnil]
    rfl
  · rw [hnil]
    simp [averageRMSEOf]

theorem batch_failure_isolation_witness :
    (runMultipleBacktests sampleRun 0 1 1 Nat.one_pos).totalTests =
      (testDates 0 1 1 Nat.one_pos).countP
        (fun d => ((sampleRun d).toOption).isSome) ∧
    (runMultipleBacktests sampleRun 0 1 1 Nat.one_pos).aggregateMetrics =
      calculateAggregateMetrics
        ((testDates 0 1 1 Nat.one_pos).filterMap fun d =>
          (sampleRun d).toOption) ∧
    (((testDates 0 1 1 Nat.one_pos).filterMap fun d =>
        (sampleRun d).toOption) = [] →
      (runMultipleBacktests sampleRun 0 1 1 Nat.one_pos).aggregateMetrics =
        { averageMAE := 0, averageMAPE := JNum.num 0,
          averageDirectionalAccuracy := 0 } ∧
      averageRMSEOf ((testDates 0 1 1 Nat.one_pos).filterMap fun d =>
        (sampleRun d).toOption) = 0) :=
  batch_failure_isolation sampleRun 0 1 1 Nat.one_pos
